import Mathlib

/-!
Shallow embedding of `src/agents/ai-trends/bot.js` (AI Trends Discord bot).

Numbers are modelled over `ℚ` (JS numbers), timestamps as rationals
(seconds or milliseconds, matching each call site of the source).
A JS object literal is modelled by the structure `Rec` whose fields are
all `Option`-valued: a field the source does not set on a given record
is `none` (JS `undefined`/`null`).

External HTTP responses are inputs of the model: `Resp α` distinguishes
a thrown fetch error (`err`), a response with `response.ok` false
(`httpErr`), and a successful body (`ok`).  The AI-keyword regular
expressions used by the GitHub / Hacker News / Hugging Face filters are
abstracted as boolean-valued parameters of the corresponding fetchers
(the claims quantify over them); everything downstream of the filters is
modelled from the source line by line.
-/

namespace AITrends

/-- Outcome of one `fetch` call: thrown network error, non-ok HTTP
status, or a successfully parsed body. -/
inductive Resp (α : Type) where
  | err : Resp α
  | httpErr : Resp α
  | ok (data : α) : Resp α
deriving DecidableEq

/-- Whether a `fetch` outcome delivered a body. -/
def Resp.isOk {α : Type} : Resp α → Bool
  | .ok _ => true
  | _ => false

/-- Whether a `fetch` call threw. -/
def Resp.isErr {α : Type} : Resp α → Bool
  | .err => true
  | _ => false

/-- JS `Math.round`: round half toward positive infinity. -/
def jsRound (q : ℚ) : ℤ := ⌊q + 1 / 2⌋

/-- JS `Math.round(x * 10) / 10`: round to one decimal place. -/
def roundTo1 (q : ℚ) : ℚ := (jsRound (q * 10) : ℚ) / 10

/-- JS `x?.substring(0, n) || dflt`: missing or empty strings fall back
to the default. -/
def jsSubstrDefault (s : Option String) (n : ℕ) (dflt : String) : String :=
  let t := (s.getD "").take n
  if t = "" then dflt else t

/-- JS `a || b` on two possibly-undefined strings (empty string is falsy). -/
def jsOr (a b : Option String) : Option String :=
  match a with
  | some s => if s = "" then b else some s
  | none => b

/-- JS template-literal interpolation of a possibly-undefined string
(`undefined` prints as "undefined"). -/
def jsTemplate (o : Option String) : String := o.getD "undefined"

/-- One normalized record as produced by the fetchers of `bot.js`.
Fields the source does not set on a given record are `none`
(the JS object simply lacks the property). -/
structure Rec where
  name : Option String := none
  title : Option String := none
  description : Option String := none
  summary : Option String := none
  url : Option String := none
  language : Option String := none
  authors : Option String := none
  subreddit : Option String := none
  author : Option String := none
  type : Option String := none
  stars : Option ℚ := none
  starsToday : Option ℚ := none
  points : Option ℚ := none
  comments : Option ℚ := none
  score : Option ℚ := none
  likes : Option ℚ := none
  likes7d : Option ℚ := none
  downloads : Option ℚ := none
  ageHours : Option ℚ := none
  hoursAgo : Option ℚ := none
  pointsPerHour : Option ℚ := none
  scorePerHour : Option ℚ := none
  isHot : Option Bool := none
  isNew : Option Bool := none
deriving DecidableEq

/-- JS `list.sort((a, b) => f(b) - f(a))`: stable sort, descending by `f`. -/
def sortByDesc (f : Rec → ℚ) (l : List Rec) : List Rec :=
  l.mergeSort fun a b => decide (f b ≤ f a)

/-! ### Hacker News (`fetchHackerNews`, bot.js lines 163-213) -/

/-- One hit of the Algolia `search_by_date` response used by
`fetchHackerNews`. -/
structure HNHit where
  title : Option String
  story_text : Option String
  created_at_i : ℚ
  points : ℚ
  author : String
  num_comments : ℚ
  objectID : String
  url : Option String
deriving DecidableEq

/-- The record built for one Hacker News hit (bot.js lines 192-205):
age clamped below to one hour, `pointsPerHour` rounded to one decimal,
`isHot` from the unrounded rate. -/
def hnRec (now : ℚ) (item : HNHit) : Rec :=
  let ageHours : ℚ := max 1 ((now - item.created_at_i) / 3600)
  let pointsPerHour : ℚ := item.points / ageHours
  { title := item.title
    url := some (item.url.getD ("https://news.ycombinator.com/item?id=" ++ item.objectID))
    points := some item.points
    pointsPerHour := some (roundTo1 pointsPerHour)
    author := some item.author
    comments := some item.num_comments
    ageHours := some ((jsRound ageHours : ℤ) : ℚ)
    isHot := some (decide (20 < pointsPerHour)) }

/-- `fetchHackerNews` (bot.js lines 163-213).  `aiTest` abstracts the
case-insensitive AI-keyword regular expression applied to
`title + " " + story_text` lowercased.  `now` is `Date.now() / 1000`. -/
def fetchHackerNews (aiTest : String → Bool) (now : ℚ)
    (resp : Resp (List HNHit)) (limit : ℕ) : List Rec :=
  match resp with
  | .err => []
  | .httpErr => []
  | .ok hits =>
    let aiStories := hits.filter fun item =>
      aiTest ((item.title.getD "" ++ " " ++ item.story_text.getD "").toLower)
    (sortByDesc (fun r => r.pointsPerHour.getD 0) (aiStories.map (hnRec now))).take limit

/-! ### GitHub Trending (`fetchGitHubTrending`, bot.js lines 73-157) -/

/-- One row of the OSS Insight trending response.  `stars` models
`parseInt(repo.stars)` (`none` = NaN, i.e. an unparseable field). -/
structure OSSRepo where
  repo_name : String
  description : Option String
  stars : Option ℤ
  primary_language : Option String
deriving DecidableEq

/-- JS `parseInt(x) || 0`: NaN falls back to 0. -/
def parseIntOr0 : Option ℤ → ℤ
  | none => 0
  | some n => n

/-- One item of the GitHub Search API response. -/
structure GHSearchRepo where
  full_name : String
  description : Option String
  stargazers_count : ℤ
  html_url : String
  language : Option String
deriving DecidableEq

/-- The record built from one OSS Insight row (bot.js lines 96-105). -/
def ossRec (repo : OSSRepo) : Rec :=
  { name := some repo.repo_name
    description := some (jsSubstrDefault repo.description 120 "無描述")
    stars := some ((parseIntOr0 repo.stars : ℤ) : ℚ)
    starsToday := some ((parseIntOr0 repo.stars : ℤ) : ℚ)
    url := some ("https://github.com/" ++ repo.repo_name)
    language := some (repo.primary_language.getD "未知")
    isHot := some (decide (500 < parseIntOr0 repo.stars)) }

/-- The record built from one GitHub Search item (bot.js lines 130-141):
`starsToday` is the estimate `Math.round(stargazers_count / 30)`. -/
def ghSearchRec (repo : GHSearchRepo) : Rec :=
  { name := some repo.full_name
    description := some (jsSubstrDefault repo.description 120 "無描述")
    stars := some ((repo.stargazers_count : ℤ) : ℚ)
    starsToday := some ((jsRound ((repo.stargazers_count : ℚ) / 30) : ℤ) : ℚ)
    url := some repo.html_url
    language := some (repo.language.getD "未知")
    isHot := some (decide (10000 < repo.stargazers_count)) }

/-- The inner `for (const repo of data.items)` loop of method 2
(bot.js lines 130-142): push each item whose `full_name` is not already
among the collected names. -/
def ghPushItems (results : List Rec) : List GHSearchRepo → List Rec
  | [] => results
  | repo :: rest =>
    if results.any fun r => r.name = some repo.full_name then
      ghPushItems results rest
    else
      ghPushItems (results ++ [ghSearchRec repo]) rest

/-- The `for (const q of queries)` loop of method 2 (bot.js
lines 120-145), one `Resp` per executed query: break once `limit`
names are collected, a thrown fetch (`err`) aborts to the outer catch
(`none`), a non-ok response is skipped. -/
def ghQueriesLoop (limit : ℕ) (results : List Rec) :
    List (Resp (List GHSearchRepo)) → Option (List Rec)
  | [] => some results
  | resp :: rest =>
    if limit ≤ results.length then some results
    else
      match resp with
      | .err => none
      | .httpErr => ghQueriesLoop limit results rest
      | .ok items => ghQueriesLoop limit (ghPushItems results items) rest

/-- `fetchGitHubTrending` (bot.js lines 73-157).  `ossAI` abstracts the
AI-keyword regular expressions on description and name (bot.js
lines 89-94).  Method 1 has its own try/catch, so an OSS Insight error
only loses that source; method 2 runs when fewer than `limit` records
were collected, and one of its thrown fetches empties the whole result
via the outer catch. -/
def fetchGitHubTrending (ossAI : OSSRepo → Bool) (ossResp : Resp (List OSSRepo))
    (searchResps : List (Resp (List GHSearchRepo))) (limit : ℕ) : List Rec :=
  let results :=
    match ossResp with
    | .ok repos => ((repos.filter ossAI).take limit).map ossRec
    | _ => []
  let results2 :=
    if results.length < limit then ghQueriesLoop limit results searchResps
    else some results
  match results2 with
  | none => []
  | some rs => (sortByDesc (fun r => r.starsToday.getD 0) rs).take limit

/-! ### Reddit (`fetchReddit`, bot.js lines 219-265) -/

/-- One post of a subreddit `hot.json` response (the `p.data` object). -/
structure RedditPost where
  created_utc : ℚ
  score : ℚ
  title : String
  permalink : String
  num_comments : ℚ
  subreddit : String
deriving DecidableEq

/-- The record built for one Reddit post (bot.js lines 238-251). -/
def redditRec (now : ℚ) (p : RedditPost) : Rec :=
  let ageHours : ℚ := max 1 ((now - p.created_utc) / 3600)
  let scorePerHour : ℚ := p.score / ageHours
  { title := some (p.title.take 100)
    url := some ("https://reddit.com" ++ p.permalink)
    score := some p.score
    scorePerHour := some (roundTo1 scorePerHour)
    comments := some p.num_comments
    subreddit := some p.subreddit
    ageHours := some ((jsRound ageHours : ℤ) : ℚ)
    isHot := some (decide (50 < scorePerHour)) }

/-- `fetchReddit` (bot.js lines 219-265), one `Resp` per subreddit.
A thrown fetch inside the subreddit loop is only caught by the outer
catch, which discards everything; a non-ok response just skips that
subreddit.  Posts older than 24 hours (86400 s) are filtered out before
the rate is computed.  `now` is `Date.now() / 1000`. -/
def fetchReddit (now : ℚ) (resps : List (Resp (List RedditPost))) (limit : ℕ) : List Rec :=
  if resps.any Resp.isErr then []
  else
    let allPosts := (resps.map fun resp =>
      match resp with
      | .ok posts =>
        (posts.filter fun p => now - p.created_utc < 86400).map (redditRec now)
      | _ => []).flatten
    (sortByDesc (fun r => r.scorePerHour.getD 0) allPosts).take limit

/-! ### arXiv (`fetchArxiv`, bot.js lines 271-318) -/

/-- One `<entry>` block of the arXiv Atom response, after the per-field
regular expressions of bot.js lines 285-291: each field is the matched,
whitespace-normalized and trimmed text (`none` = tag absent).
`published` is the parsed `<published>` date in milliseconds since the
epoch; `none` models a missing tag, whose `new Date(undefined)` is an
Invalid Date (NaN age, filtered out). -/
structure ArxivEntry where
  title : Option String
  summary : Option String
  link : Option String
  published : Option ℚ
  authors : Option String
deriving DecidableEq

/-- The record pushed for one accepted arXiv entry (bot.js
lines 298-305).  A missing summary renders as the JS string
concatenation `undefined + "..."`.  Note there is no `isHot` field:
arXiv records only get the recency flag `isNew`. -/
def arxivRec (hoursAgo : ℚ) (title link : String)
    (summary authors : Option String) : Rec :=
  { title := some (title.take 100)
    summary := some ((match summary with
      | some s => s.take 150
      | none => "undefined") ++ "...")
    url := some link
    authors := some (authors.getD "未知")
    hoursAgo := some ((jsRound hoursAgo : ℤ) : ℚ)
    isNew := some (decide (hoursAgo ≤ 24)) }

/-- The acceptance test and record of one arXiv entry (bot.js
lines 293-307): truthy title and link, a parseable date, and an age of
at most 48 hours.  `now` is in milliseconds. -/
def arxivEntryRec (now : ℚ) (e : ArxivEntry) : Option Rec :=
  match e.title, e.link with
  | some t, some l =>
    if t ≠ "" ∧ l ≠ "" then
      match e.published with
      | some pub =>
        let hoursAgo := (now - pub) / (1000 * 60 * 60)
        if hoursAgo ≤ 48 then some (arxivRec hoursAgo t l e.summary e.authors)
        else none
      | none => none
    else none
  | _, _ => none

/-- The `for (const entry of entries)` loop of `fetchArxiv` (bot.js
lines 284-310): push accepted entries in response order, break once
`limit` papers are collected. -/
def arxivLoop (now : ℚ) (limit : ℕ) (papers : List Rec) : List ArxivEntry → List Rec
  | [] => papers
  | e :: rest =>
    let papers2 :=
      match arxivEntryRec now e with
      | some r => papers ++ [r]
      | none => papers
    if limit ≤ papers2.length then papers2
    else arxivLoop now limit papers2 rest

/-- `fetchArxiv` (bot.js lines 271-318): no local sort, entries are
kept in response order. -/
def fetchArxiv (now : ℚ) (resp : Resp (List ArxivEntry)) (limit : ℕ) : List Rec :=
  match resp with
  | .err => []
  | .httpErr => []
  | .ok entries => arxivLoop now limit [] entries

/-! ### Hugging Face (`fetchHuggingFace`, bot.js lines 324-383) -/

/-- One model of the Hugging Face models response (numeric fields may
be absent, JS `|| 0` falls back). -/
structure HFModel where
  modelId : Option String
  id : Option String
  likes : Option ℚ
  likes7d : Option ℚ
  downloads : Option ℚ
deriving DecidableEq

/-- One space of the Hugging Face spaces response. -/
structure HFSpace where
  id : String
  likes : Option ℚ
  likes7d : Option ℚ
deriving DecidableEq

/-- The record pushed for one Hugging Face model (bot.js
lines 347-357). -/
def hfModelRec (m : HFModel) : Rec :=
  { type := some "🤖 Model"
    name := jsOr m.modelId m.id
    url := some ("https://huggingface.co/" ++ jsTemplate (jsOr m.modelId m.id))
    likes := some (m.likes.getD 0)
    likes7d := some (m.likes7d.getD 0)
    downloads := some (m.downloads.getD 0)
    isHot := some (decide (100 < m.likes7d.getD 0)) }

/-- The record pushed for one Hugging Face space (bot.js
lines 362-371); `downloads` is JS `null`. -/
def hfSpaceRec (s : HFSpace) : Rec :=
  { type := some "🚀 Space"
    name := some s.id
    url := some ("https://huggingface.co/spaces/" ++ s.id)
    likes := some (s.likes.getD 0)
    likes7d := some (s.likes7d.getD 0)
    downloads := none
    isHot := some (decide (50 < s.likes7d.getD 0)) }

/-- `fetchHuggingFace` (bot.js lines 324-383).  The two fetches run
under `Promise.all`, so either thrown fetch rejects the pair and the
outer catch returns the empty list; a non-ok response only loses its
half.  `hfAI` abstracts the tag/name filter of bot.js lines 340-345. -/
def fetchHuggingFace (hfAI : HFModel → Bool)
    (modelsResp : Resp (List HFModel)) (spacesResp : Resp (List HFSpace))
    (limit : ℕ) : List Rec :=
  if modelsResp.isErr || spacesResp.isErr then []
  else
    let fromModels :=
      match modelsResp with
      | .ok models => ((models.filter hfAI).take 4).map hfModelRec
      | _ => []
    let fromSpaces :=
      match spacesResp with
      | .ok spaces => (spaces.take 3).map hfSpaceRec
      | _ => []
    (sortByDesc (fun r => r.likes7d.getD 0) (fromModels ++ fromSpaces)).take limit

/-! ### Product Hunt (`fetchProductHunt`, bot.js lines 389-440) -/

/-- One `<item>` block of a Product Hunt RSS feed, after the per-field
regular expressions of bot.js lines 410-415.  `pubDateMs` is the parsed
`<pubDate>` in milliseconds (`none` = tag absent, in which case the
code substitutes the current time).  `description` is the matched
description text after the HTML-tag-stripping replace. -/
structure PHItem where
  title : Option String
  link : Option String
  pubDateMs : Option ℚ
  description : Option String
deriving DecidableEq

/-- The record built for one Product Hunt item (bot.js lines 409-426).
`isNew` compares the rounded age; there is no `isHot` field. -/
def phRec (now : ℚ) (item : PHItem) : Rec :=
  let pub := item.pubDateMs.getD now
  let hoursAgo : ℤ := jsRound ((now - pub) / (1000 * 60 * 60))
  { title := some (jsSubstrDefault item.title 80 "未知")
    description := some ((item.description.getD "").take 100)
    url := some (item.link.getD "")
    hoursAgo := some ((hoursAgo : ℤ) : ℚ)
    isNew := some (decide (hoursAgo ≤ 24)) }

/-- The mapping and url filter applied to a non-empty feed (bot.js
lines 409-427): truncate to `limit`, build records, drop records whose
url is falsy. -/
def phFromFeed (now : ℚ) (limit : ℕ) (items : List PHItem) : List Rec :=
  ((items.take limit).map (phRec now)).filter fun p => !(p.url.getD "" = "")

/-- The `for (const feedUrl of sources)` loop of `fetchProductHunt`
(bot.js lines 397-433): a thrown fetch is caught and the next source is
tried; a non-ok response or an empty item list also falls through to
the next source; the first source with items yields the result. -/
def phSourcesLoop (now : ℚ) (limit : ℕ) : List (Resp (List PHItem)) → List Rec
  | [] => []
  | resp :: rest =>
    match resp with
    | .err => phSourcesLoop now limit rest
    | .httpErr => phSourcesLoop now limit rest
    | .ok items =>
      if 0 < items.length then phFromFeed now limit items
      else phSourcesLoop now limit rest

/-- `fetchProductHunt` (bot.js lines 389-440), one `Resp` per feed
source. -/
def fetchProductHunt (now : ℚ) (resps : List (Resp (List PHItem))) (limit : ℕ) : List Rec :=
  phSourcesLoop now limit resps

/-! ### Report generation (`generateTrendReport`, bot.js lines 444-472) -/

/-- The report object returned by `generateTrendReport` (the rendered
`date`/`time` strings are not modelled). -/
structure Report where
  github : List Rec
  hackerNews : List Rec
  reddit : List Rec
  arxiv : List Rec
  huggingface : List Rec
  productHunt : List Rec
deriving DecidableEq

/-- `generateTrendReport` (bot.js lines 444-472): the six fetchers run
under `Promise.all` with the fixed limits 6, 6, 5, 4, 5, 3, and each
section of the report is exactly its fetcher's result.  `nowSec` and
`nowMs` are the clock readings in seconds and in milliseconds. -/
def generateTrendReport (ossAI : OSSRepo → Bool) (hnAI : String → Bool)
    (hfAI : HFModel → Bool) (nowSec nowMs : ℚ)
    (ossResp : Resp (List OSSRepo)) (searchResps : List (Resp (List GHSearchRepo)))
    (hnResp : Resp (List HNHit)) (redditResps : List (Resp (List RedditPost)))
    (arxivResp : Resp (List ArxivEntry))
    (hfModelsResp : Resp (List HFModel)) (hfSpacesResp : Resp (List HFSpace))
    (phResps : List (Resp (List PHItem))) : Report :=
  { github := fetchGitHubTrending ossAI ossResp searchResps 6
    hackerNews := fetchHackerNews hnAI nowSec hnResp 6
    reddit := fetchReddit nowSec redditResps 5
    arxiv := fetchArxiv nowMs arxivResp 4
    huggingface := fetchHuggingFace hfAI hfModelsResp hfSpacesResp 5
    productHunt := fetchProductHunt nowMs phResps 3 }

/-! ### Rendering (`createReportEmbeds`, bot.js lines 474-580) and
dispatch batching (`pushReport`, bot.js lines 582-597) -/

/-- Which embed of the report a block is (title embed or one per
non-empty source section). -/
inductive EmbedTag where
  | title
  | github
  | hackerNews
  | reddit
  | arxiv
  | huggingface
  | productHunt
deriving DecidableEq

/-- One embed, modelled structurally: its tag, its color, and the
records its description renders (the markdown interpolation itself is
not modelled). -/
structure Embed where
  tag : EmbedTag
  color : ℕ
  items : List Rec
deriving DecidableEq

/-- `createReportEmbeds` (bot.js lines 474-580): always the title
embed, then one embed per non-empty section, in the fixed order
GitHub, Hacker News, Reddit, arXiv, Hugging Face, Product Hunt. -/
def createReportEmbeds (report : Report) : List Embed :=
  [⟨.title, 0x00AE86, []⟩]
    ++ (if 0 < report.github.length then [⟨.github, 0x24292e, report.github⟩] else [])
    ++ (if 0 < report.hackerNews.length then [⟨.hackerNews, 0xFF6600, report.hackerNews⟩] else [])
    ++ (if 0 < report.reddit.length then [⟨.reddit, 0xFF4500, report.reddit⟩] else [])
    ++ (if 0 < report.arxiv.length then [⟨.arxiv, 0xB31B1B, report.arxiv⟩] else [])
    ++ (if 0 < report.huggingface.length then [⟨.huggingface, 0xFFD21E, report.huggingface⟩] else [])
    ++ (if 0 < report.productHunt.length then [⟨.productHunt, 0xDA552F, report.productHunt⟩] else [])

/-- The send loop of `pushReport` (bot.js lines 587-589):
`for (let i = 0; i < embeds.length; i += 10)` sends slices of ten. -/
def sendBatches (l : List Embed) : List (List Embed) :=
  if l = [] then []
  else l.take 10 :: sendBatches (l.drop 10)
termination_by l.length
decreasing_by
  simp only [List.length_drop]
  rename_i h
  have : l.length ≠ 0 := fun hl => h (List.eq_nil_of_length_eq_zero hl)
  omega

/-! ### Scheduled pushes (`PUSH_SCHEDULE` bot.js lines 36-39,
`checkScheduledPush` bot.js lines 601-644)

Taipei wall-clock time is modelled as minutes since an epoch; the
date string and the hour/minute components used for the slot key are
the corresponding components of that count.  `pushedSlots` is the
insertion-ordered `Set` of slot keys. -/

/-- The fixed push schedule, Taipei time (bot.js lines 36-39). -/
def PUSH_SCHEDULE : List (ℕ × ℕ) := [(8, 0), (20, 0)]

/-- Taipei date component of a Taipei-minutes clock reading (the
`dateStr` part of the slot key). -/
def taipeiDate (t : ℕ) : ℕ := t / 1440

/-- Taipei hour component (`taipeiTime.getHours()`). -/
def taipeiHour (t : ℕ) : ℕ := t % 1440 / 60

/-- Taipei minute component (`taipeiTime.getMinutes()`). -/
def taipeiMinute (t : ℕ) : ℕ := t % 60

/-- The slot key `dateStr-hour` (bot.js line 610). -/
def slotKey (t : ℕ) : ℕ × ℕ := (taipeiDate t, taipeiHour t)

/-- The trim of `pushedSlots` after an insertion (bot.js
lines 616-619): delete all but the ten most recently inserted keys. -/
def trimSlots (l : List (ℕ × ℕ)) : List (ℕ × ℕ) :=
  if 10 < l.length then l.drop (l.length - 10) else l

/-- The `for (const schedule of PUSH_SCHEDULE)` loop of
`checkScheduledPush` (bot.js lines 608-643): on a matching hour and
minute, return without pushing when the slot key was already pushed,
otherwise record the key, trim, push, and break.  The returned flag
says whether a push was dispatched. -/
def pushLoop (key : ℕ × ℕ) (hour minute : ℕ) (slots : List (ℕ × ℕ)) :
    List (ℕ × ℕ) → Bool × List (ℕ × ℕ)
  | [] => (false, slots)
  | s :: rest =>
    if hour = s.1 ∧ minute = s.2 then
      if key ∈ slots then (false, slots)
      else (true, trimSlots (slots ++ [key]))
    else pushLoop key hour minute slots rest

/-- One invocation of `checkScheduledPush` (bot.js lines 601-644) at
Taipei-minutes clock reading `t`. -/
def checkScheduledPush (t : ℕ) (slots : List (ℕ × ℕ)) : Bool × List (ℕ × ℕ) :=
  pushLoop (slotKey t) (taipeiHour t) (taipeiMinute t) slots PUSH_SCHEDULE

/-- The `pushedSlots` contents before step `n` of a run of
`checkScheduledPush` invocations whose clock readings are `ts`,
starting from the empty set (bot.js line 53). -/
def schedState (ts : ℕ → ℕ) : ℕ → List (ℕ × ℕ)
  | 0 => []
  | n + 1 => (checkScheduledPush (ts n) (schedState ts n)).2

/-- Whether step `n` of the run dispatched a scheduled push. -/
def pushedAt (ts : ℕ → ℕ) (n : ℕ) : Bool :=
  (checkScheduledPush (ts n) (schedState ts n)).1

/-! ### Message dedup (`processedMessages` bot.js lines 56-57,
MessageCreate handler bot.js lines 806-830)

The dedup set is modelled as the list of (message id, insertion time)
pairs; the `setTimeout(..., DEDUP_TIMEOUT)` deletions are replayed at
the start of each (single-threaded) event dispatch, firing at their
earliest allowed time. -/

/-- One delivered MessageCreate event. -/
structure MsgEvent where
  time : ℕ
  id : String
  isBot : Bool
  isDMorMention : Bool

/-- Dedup window in milliseconds (bot.js line 57). -/
def DEDUP_TIMEOUT : ℕ := 10000

/-- One dispatch of the MessageCreate handler (bot.js lines 806-830):
expired dedup entries are dropped, bot authors are ignored, duplicate
ids are skipped, and `handleMessage` runs (flag `true`) only for a DM
or a mention.  Every processed non-bot message is recorded. -/
def msgStep (e : MsgEvent) (st : List (String × ℕ)) : Bool × List (String × ℕ) :=
  let st1 := st.filter fun p => e.time < p.2 + DEDUP_TIMEOUT
  if e.isBot then (false, st1)
  else if st1.any fun p => p.1 = e.id then (false, st1)
  else (e.isDMorMention, st1 ++ [(e.id, e.time)])

/-- The dedup set before step `n` of a run of MessageCreate dispatches
`ev`, starting empty. -/
def msgState (ev : ℕ → MsgEvent) : ℕ → List (String × ℕ)
  | 0 => []
  | n + 1 => (msgStep (ev n) (msgState ev n)).2

/-- Whether step `n` of the run invoked `handleMessage`. -/
def invokedAt (ev : ℕ → MsgEvent) (n : ℕ) : Bool :=
  (msgStep (ev n) (msgState ev n)).1

/-! ### Subscribers (`subscribers` bot.js line 52, `handleMessage`
bot.js lines 648-802)

The `subscribers` `Map` is modelled as its insertion-ordered
association list; `Map.get`, `Map.set` and `Map.delete` are modelled on
that list (a `Map` holds at most one entry per key). -/

/-- One subscriber entry (bot.js line 784). -/
structure Subscriber where
  channelId : String
  enabled : Bool
deriving DecidableEq

/-- JS `Map.prototype.get`. -/
def mapGet (subs : List (String × Subscriber)) (k : String) : Option Subscriber :=
  (subs.find? fun p => p.1 = k).map Prod.snd

/-- JS `Map.prototype.set`: overwrite the existing entry in place, or
append a new one. -/
def mapSet (subs : List (String × Subscriber)) (k : String) (v : Subscriber) :
    List (String × Subscriber) :=
  match subs with
  | [] => [(k, v)]
  | (k2, v2) :: rest =>
    if k2 = k then (k, v) :: rest else (k2, v2) :: mapSet rest k v

/-- JS `Map.prototype.delete`: remove the entry with the given key. -/
def mapDelete (subs : List (String × Subscriber)) (k : String) :
    List (String × Subscriber) :=
  match subs with
  | [] => []
  | (k2, v2) :: rest =>
    if k2 = k then rest else (k2, v2) :: mapDelete rest k

/-- The effect of one `handleMessage` call (bot.js lines 648-802) on
the `subscribers` map, as a function of the normalized command
(`content.toLowerCase().trim()`), the author id and the channel id:
only the subscribe and unsubscribe branches touch the map. -/
def subsEffect (cmd authorId channelId : String)
    (subs : List (String × Subscriber)) : List (String × Subscriber) :=
  if cmd = "!help" ∨ cmd = "help" ∨ cmd = "幫助" then subs
  else if cmd = "!news" ∨ cmd = "!today" ∨ cmd = "報告" ∨ cmd = "趨勢" then subs
  else if cmd = "!github" then subs
  else if cmd = "!hn" ∨ cmd = "!hackernews" then subs
  else if cmd = "!reddit" then subs
  else if cmd = "!arxiv" ∨ cmd = "!paper" then subs
  else if cmd = "!hf" ∨ cmd = "!huggingface" then subs
  else if cmd = "!subscribe" ∨ cmd = "訂閱" then mapSet subs authorId ⟨channelId, true⟩
  else if cmd = "!unsubscribe" ∨ cmd = "取消訂閱" then mapDelete subs authorId
  else subs

/-! ### Concrete sample inputs, used to evaluate the model -/

/-- A sample arXiv entry published 40 hours before the sample clock
reading 144000000 ms. -/
def entryOld : ArxivEntry :=
  { title := some "Old paper", summary := some "first summary"
    link := some "http://arxiv.org/abs/1", published := some 0
    authors := some "Alice" }

/-- A sample arXiv entry published 1 hour before the sample clock
reading 144000000 ms. -/
def entryNew : ArxivEntry :=
  { title := some "New paper", summary := some "second summary"
    link := some "http://arxiv.org/abs/2", published := some 140400000
    authors := some "Bob" }

/-- A sample Hacker News hit: 30 points, posted 2 hours before the
sample clock reading 7200 s. -/
def hit0 : HNHit :=
  { title := some "AI story", story_text := none, created_at_i := 0
    points := 30, author := "alice", num_comments := 5, objectID := "42"
    url := none }

/-- A sample Reddit post: 100 points, posted 1 hour before the sample
clock reading 3600 s. -/
def post0 : RedditPost :=
  { created_utc := 0, score := 100, title := "LLM thread"
    permalink := "/r/ml/1", num_comments := 3, subreddit := "MachineLearning" }

/-! ## Theorems -/

/-- Stable descending sort by `f` yields a list pairwise ordered by
`f b ≤ f a`. -/
theorem pairwise_sortByDesc (f : Rec → ℚ) (l : List Rec) :
    (sortByDesc f l).Pairwise fun a b => f b ≤ f a := by
  have h := @List.sorted_mergeSort Rec
    (fun a b : Rec => decide (f b ≤ f a))
    (fun a b c hab hbc => by
      simp only [decide_eq_true_eq] at *
      exact le_trans hbc hab)
    (fun a b => by
      simp only [Bool.or_eq_true, decide_eq_true_eq]
      exact le_total (f b) (f a))
    l
  exact h.imp fun hab => of_decide_eq_true hab

/-- Sorting then truncating keeps the descending order. -/
theorem pairwise_take_sortByDesc (f : Rec → ℚ) (l : List Rec) (n : ℕ) :
    ((sortByDesc f l).take n).Pairwise fun a b => f b ≤ f a :=
  List.Pairwise.sublist (List.take_sublist n (sortByDesc f l)) (pairwise_sortByDesc f l)

/-- Sorting preserves membership. -/
theorem mem_sortByDesc {f : Rec → ℚ} {l : List Rec} {r : Rec} :
    r ∈ sortByDesc f l ↔ r ∈ l :=
  List.mem_mergeSort

/-- Sorting then truncating yields at most `n` records. -/
theorem length_take_sortByDesc (f : Rec → ℚ) (l : List Rec) (n : ℕ) :
    ((sortByDesc f l).take n).length ≤ n := by
  rw [List.length_take]
  exact min_le_left _ _

/-- The trim keeps exactly the ten most recent slot keys. -/
theorem trimSlots_length (l : List (ℕ × ℕ)) :
    (trimSlots l).length = min l.length 10 := by
  unfold trimSlots
  split
  · rw [List.length_drop]
    omega
  · omega

/-- Each step of the push loop either leaves the slot set unchanged or
inserts the key and trims. -/
theorem pushLoop_snd (key : ℕ × ℕ) (h m : ℕ) (slots : List (ℕ × ℕ)) :
    ∀ sched, (pushLoop key h m slots sched).2 = slots ∨
      (pushLoop key h m slots sched).2 = trimSlots (slots ++ [key]) := by
  intro sched
  induction sched with
  | nil => exact Or.inl rfl
  | cons s rest ih =>
    unfold pushLoop
    split
    · split
      · exact Or.inl rfl
      · exact Or.inr rfl
    · exact ih

/-- C8: starting from the empty set, `pushedSlots` never holds more
than ten slot keys: the trim after each insertion removes all but the
ten most recently inserted. -/
theorem pushedSlots_bounded : ∀ (ts : ℕ → ℕ) (n : ℕ),
    (schedState ts n).length ≤ 10 := by
  intro ts n
  induction n with
  | zero => simp [schedState]
  | succ n ih =>
    show (checkScheduledPush (ts n) (schedState ts n)).2.length ≤ 10
    rcases pushLoop_snd (slotKey (ts n)) (taipeiHour (ts n)) (taipeiMinute (ts n))
        (schedState ts n) PUSH_SCHEDULE with h | h
    · rw [checkScheduledPush, h]; exact ih
    · rw [checkScheduledPush, h, trimSlots_length]
      omega

/-- A list of at most ten embeds is sent in a single batch. -/
theorem sendBatches_of_length_le (l : List Embed) (h1 : l ≠ [])
    (h2 : l.length ≤ 10) : sendBatches l = [l] := by
  rw [sendBatches, if_neg h1, List.take_of_length_le h2,
    List.drop_eq_nil_of_le h2, sendBatches, if_pos rfl]

/-- C9: the rendered report always starts with the title embed,
carries one embed per non-empty section in the fixed source order,
has between one and seven embeds, and therefore goes out in exactly
one send batch of ten. -/
theorem createReportEmbeds_shape : ∀ report : Report,
    1 ≤ (createReportEmbeds report).length ∧
    (createReportEmbeds report).length ≤ 7 ∧
    (createReportEmbeds report).head? = some ⟨.title, 0x00AE86, []⟩ ∧
    (createReportEmbeds report).map Embed.tag
      = [EmbedTag.title]
        ++ (if 0 < report.github.length then [EmbedTag.github] else [])
        ++ (if 0 < report.hackerNews.length then [EmbedTag.hackerNews] else [])
        ++ (if 0 < report.reddit.length then [EmbedTag.reddit] else [])
        ++ (if 0 < report.arxiv.length then [EmbedTag.arxiv] else [])
        ++ (if 0 < report.huggingface.length then [EmbedTag.huggingface] else [])
        ++ (if 0 < report.productHunt.length then [EmbedTag.productHunt] else []) ∧
    ((createReportEmbeds report).map Embed.tag).Sublist
      [EmbedTag.title, EmbedTag.github, EmbedTag.hackerNews, EmbedTag.reddit,
        EmbedTag.arxiv, EmbedTag.huggingface, EmbedTag.productHunt] ∧
    sendBatches (createReportEmbeds report) = [createReportEmbeds report] := by
  intro report
  have htags : (createReportEmbeds report).map Embed.tag
      = [EmbedTag.title]
        ++ (if 0 < report.github.length then [EmbedTag.github] else [])
        ++ (if 0 < report.hackerNews.length then [EmbedTag.hackerNews] else [])
        ++ (if 0 < report.reddit.length then [EmbedTag.reddit] else [])
        ++ (if 0 < report.arxiv.length then [EmbedTag.arxiv] else [])
        ++ (if 0 < report.huggingface.length then [EmbedTag.huggingface] else [])
        ++ (if 0 < report.productHunt.length then [EmbedTag.productHunt] else []) := by
    simp only [createReportEmbeds, List.map_append, apply_ite (List.map Embed.tag),
      List.map_cons, List.map_nil]
  have hlen : (createReportEmbeds report).length
      = ([EmbedTag.title]
        ++ (if 0 < report.github.length then [EmbedTag.github] else [])
        ++ (if 0 < report.hackerNews.length then [EmbedTag.hackerNews] else [])
        ++ (if 0 < report.reddit.length then [EmbedTag.reddit] else [])
        ++ (if 0 < report.arxiv.length then [EmbedTag.arxiv] else [])
        ++ (if 0 < report.huggingface.length then [EmbedTag.huggingface] else [])
        ++ (if 0 < report.productHunt.length then [EmbedTag.productHunt] else [])).length := by
    rw [← htags, List.length_map]
  have hle : (createReportEmbeds report).length ≤ 7 := by
    rw [hlen]
    split_ifs <;> simp
  have hone : 1 ≤ (createReportEmbeds report).length := by
    rw [hlen]
    split_ifs <;> simp
  have hsub : ∀ t : EmbedTag, ∀ c : Prop, ∀ inst : Decidable c,
      (if c then [t] else []).Sublist [t] := by
    intro t c inst
    split
    · exact List.Sublist.refl _
    · exact List.nil_sublist _
  refine ⟨hone, hle, rfl, htags, ?_, ?_⟩
  · rw [htags]
    show List.Sublist _ ([EmbedTag.title] ++ [EmbedTag.github] ++ [EmbedTag.hackerNews]
      ++ [EmbedTag.reddit] ++ [EmbedTag.arxiv] ++ [EmbedTag.huggingface]
      ++ [EmbedTag.productHunt])
    exact ((((((List.Sublist.refl [EmbedTag.title]).append (hsub _ _ _)).append
      (hsub _ _ _)).append (hsub _ _ _)).append (hsub _ _ _)).append
      (hsub _ _ _)).append (hsub _ _ _)
  · refine sendBatches_of_length_le _ ?_ (le_trans hle (by omega))
    intro hnil
    rw [hnil] at hone
    simp at hone

/-- A slot key already recorded blocks the push without touching the
slot set. -/
theorem pushLoop_of_mem (key : ℕ × ℕ) (h m : ℕ) (slots : List (ℕ × ℕ))
    (hmem : key ∈ slots) :
    ∀ sched, pushLoop key h m slots sched = (false, slots) := by
  intro sched
  induction sched with
  | nil => rfl
  | cons s rest ih =>
    simp only [pushLoop, if_pos hmem]
    split
    · rfl
    · exact ih

/-- A dispatched push certifies a schedule match, a fresh slot key, and
the insert-and-trim update. -/
theorem pushLoop_fst_true (key : ℕ × ℕ) (h m : ℕ) (slots : List (ℕ × ℕ)) :
    ∀ sched, (pushLoop key h m slots sched).1 = true →
      (∃ p ∈ sched, h = p.1 ∧ m = p.2) ∧ key ∉ slots ∧
      (pushLoop key h m slots sched).2 = trimSlots (slots ++ [key]) := by
  intro sched
  induction sched with
  | nil => intro hp; simp [pushLoop] at hp
  | cons s rest ih =>
    unfold pushLoop
    split
    · rename_i hmatch
      split
      · intro hp; simp at hp
      · rename_i hnotmem
        intro _
        exact ⟨⟨s, List.mem_cons_self s rest, hmatch.1, hmatch.2⟩, hnotmem, rfl⟩
    · intro hp
      obtain ⟨⟨p, hpmem, hh, hm⟩, hnm, hupd⟩ := ih hp
      exact ⟨⟨p, List.mem_cons_of_mem s hpmem, hh, hm⟩, hnm, hupd⟩

/-- A step that does not push leaves the slot set unchanged. -/
theorem pushLoop_fst_false (key : ℕ × ℕ) (h m : ℕ) (slots : List (ℕ × ℕ)) :
    ∀ sched, (pushLoop key h m slots sched).1 = false →
      (pushLoop key h m slots sched).2 = slots := by
  intro sched
  induction sched with
  | nil => intro _; rfl
  | cons s rest ih =>
    unfold pushLoop
    split
    · split
      · intro _; rfl
      · intro hp; simp at hp
    · exact ih

/-- The freshly inserted slot key survives the trim to the ten most
recent keys. -/
theorem mem_trimSlots_append (s : List (ℕ × ℕ)) (k : ℕ × ℕ) :
    k ∈ trimSlots (s ++ [k]) := by
  unfold trimSlots
  split
  · rename_i hlen
    rw [List.length_append] at hlen
    rw [List.drop_append_of_le_length (by simp)]
    exact List.mem_append_right _ (List.mem_singleton.mpr rfl)
  · exact List.mem_append_right _ (List.mem_singleton.mpr rfl)

/-- A dispatched `checkScheduledPush` happened at 08:00 or 20:00 Taipei
time, on a slot key not yet recorded, and recorded it. -/
theorem check_push_true {t : ℕ} {s : List (ℕ × ℕ)}
    (hp : (checkScheduledPush t s).1 = true) :
    ((taipeiHour t = 8 ∨ taipeiHour t = 20) ∧ taipeiMinute t = 0) ∧
    slotKey t ∉ s ∧
    (checkScheduledPush t s).2 = trimSlots (s ++ [slotKey t]) := by
  have h := pushLoop_fst_true (slotKey t) (taipeiHour t) (taipeiMinute t) s
    PUSH_SCHEDULE hp
  refine ⟨?_, h.2.1, h.2.2⟩
  obtain ⟨p, hpmem, hh, hm⟩ := h.1
  simp only [PUSH_SCHEDULE, List.mem_cons, List.not_mem_nil, or_false,
    List.mem_singleton] at hpmem
  rcases hpmem with rfl | rfl
  · exact ⟨Or.inl hh, hm⟩
  · exact ⟨Or.inr hh, hm⟩

/-- C5: pushes are dispatched only at the two scheduled Taipei times
08:00 and 20:00, and with a monotone clock a date-and-hour slot that
has already triggered a push never triggers a second one. -/
theorem scheduled_push_at_most_once (ts : ℕ → ℕ)
    (mono : ∀ a b, a ≤ b → ts a ≤ ts b) :
    (∀ n, pushedAt ts n = true →
      (taipeiHour (ts n) = 8 ∨ taipeiHour (ts n) = 20) ∧ taipeiMinute (ts n) = 0) ∧
    (∀ i j, i < j → pushedAt ts i = true → slotKey (ts j) = slotKey (ts i) →
      pushedAt ts j = false) := by
  constructor
  · intro n hp
    exact (check_push_true hp).1
  · intro i j hij hpi hkey
    by_contra hpj
    rw [Bool.not_eq_false] at hpj
    have ci := check_push_true hpi
    have cj := check_push_true hpj
    have hdij : ts j / 1440 = ts i / 1440 := congrArg Prod.fst hkey
    have hhij : ts j % 1440 / 60 = ts i % 1440 / 60 := congrArg Prod.snd hkey
    have hmi : ts i % 60 = 0 := ci.1.2
    have hmj : ts j % 60 = 0 := cj.1.2
    have htji : ts j = ts i := by omega
    have key_mem : slotKey (ts i) ∈ schedState ts (i + 1) := by
      show slotKey (ts i) ∈ (checkScheduledPush (ts i) (schedState ts i)).2
      rw [ci.2.2]
      exact mem_trimSlots_append _ _
    have inv : ∀ m, i + 1 ≤ m → m ≤ j → schedState ts m = schedState ts (i + 1) := by
      intro m hm
      induction m, hm using Nat.le_induction with
      | base => intro _; rfl
      | succ n hn ih =>
        intro hnj
        have ihn := ih (by omega)
        have h1 : ts i ≤ ts n := mono i n (by omega)
        have h2 : ts n ≤ ts j := mono n j (by omega)
        have heq : ts n = ts i := by omega
        show (checkScheduledPush (ts n) (schedState ts n)).2 = _
        rw [heq, ihn, checkScheduledPush,
          pushLoop_of_mem _ _ _ _ key_mem PUSH_SCHEDULE]
    have hstate : schedState ts j = schedState ts (i + 1) := inv j (by omega) le_rfl
    have : pushedAt ts j = false := by
      rw [pushedAt, hstate, checkScheduledPush, hkey,
        pushLoop_of_mem _ _ _ _ key_mem PUSH_SCHEDULE]
    rw [this] at hpj
    exact Bool.false_ne_true hpj

/-- Witness: with the clock pinned at 08:00 Taipei time of day zero,
the first invocation pushes and the second is deduplicated. -/
theorem scheduled_push_at_most_once_witness :
    pushedAt (fun _ => 480) 1 = false :=
  (scheduled_push_at_most_once (fun _ => 480) (fun _ _ _ => le_refl 480)).2
    0 1 (by omega) (by decide) rfl

/-- A dedup entry that has not expired survives one handler dispatch. -/
theorem msgStep_state_super (e : MsgEvent) (st : List (String × ℕ))
    (p : String × ℕ) (hp : p ∈ st) (ht : e.time < p.2 + DEDUP_TIMEOUT) :
    p ∈ (msgStep e st).2 := by
  simp only [msgStep]
  have h1 : p ∈ st.filter fun q => decide (e.time < q.2 + DEDUP_TIMEOUT) :=
    List.mem_filter.mpr ⟨hp, decide_eq_true ht⟩
  split
  · exact h1
  · split
    · exact h1
    · exact List.mem_append_left _ h1

/-- An invoking dispatch was a non-bot message and recorded its id. -/
theorem msgStep_invoked {e : MsgEvent} {st : List (String × ℕ)}
    (h : (msgStep e st).1 = true) :
    e.isBot = false ∧
    (msgStep e st).2
      = (st.filter fun q => decide (e.time < q.2 + DEDUP_TIMEOUT))
        ++ [(e.id, e.time)] := by
  simp only [msgStep] at h ⊢
  split at h
  · simp at h
  · rename_i hbot
    split at h
    · simp at h
    · rename_i hany
      refine ⟨Bool.of_not_eq_true hbot, ?_⟩
      rw [if_neg hbot, if_neg hany]

/-- A message id still present in the dedup set blocks the handler. -/
theorem msgStep_dup_skip {e : MsgEvent} {st : List (String × ℕ)}
    (p : String × ℕ) (hp : p ∈ st) (hid : p.1 = e.id)
    (ht : e.time < p.2 + DEDUP_TIMEOUT) :
    (msgStep e st).1 = false := by
  simp only [msgStep]
  split
  · rfl
  · split
    · rfl
    · rename_i hany
      exfalso
      apply hany
      exact List.any_eq_true.mpr
        ⟨p, List.mem_filter.mpr ⟨hp, decide_eq_true ht⟩, decide_eq_true hid⟩

/-- C7: bot-authored MessageCreate events never invoke `handleMessage`,
and two deliveries of the same message id within the ten-second dedup
window invoke it at most once. -/
theorem message_dedup (ev : ℕ → MsgEvent)
    (mono : ∀ a b, a ≤ b → (ev a).time ≤ (ev b).time) :
    (∀ n, (ev n).isBot = true → invokedAt ev n = false) ∧
    (∀ i j, i < j → (ev i).id = (ev j).id →
      (ev j).time < (ev i).time + DEDUP_TIMEOUT →
      ¬(invokedAt ev i = true ∧ invokedAt ev j = true)) := by
  constructor
  · intro n hbot
    simp [invokedAt, msgStep, hbot]
  · rintro i j hij hid ht ⟨hi, hj⟩
    have hstep := msgStep_invoked hi
    have hpmem : ∀ m, i + 1 ≤ m → m ≤ j →
        ((ev i).id, (ev i).time) ∈ msgState ev m := by
      intro m hm
      induction m, hm using Nat.le_induction with
      | base =>
        intro _
        show _ ∈ (msgStep (ev i) (msgState ev i)).2
        rw [hstep.2]
        exact List.mem_append_right _ (List.mem_singleton.mpr rfl)
      | succ n hn ih =>
        intro hnj
        have hpn := ih (by omega)
        show _ ∈ (msgStep (ev n) (msgState ev n)).2
        apply msgStep_state_super _ _ _ hpn
        show (ev n).time < (ev i).time + DEDUP_TIMEOUT
        have h2 := mono n j (by omega)
        omega
    have hmem : ((ev i).id, (ev i).time) ∈ msgState ev j :=
      hpmem j (by omega) le_rfl
    have hskip : invokedAt ev j = false :=
      msgStep_dup_skip ((ev i).id, (ev i).time) hmem hid ht
    rw [hskip] at hj
    exact Bool.false_ne_true hj

/-- Witness: two deliveries of the same non-bot message at the same
instant invoke the handler at most once. -/
theorem message_dedup_witness :
    ¬(invokedAt (fun _ => ⟨0, "m1", false, true⟩) 0 = true ∧
      invokedAt (fun _ => ⟨0, "m1", false, true⟩) 1 = true) :=
  (message_dedup (fun _ => ⟨0, "m1", false, true⟩) (fun _ _ _ => le_refl 0)).2
    0 1 (by omega) rfl (by decide)

/-- `Map.set` makes the key map to the new value. -/
theorem mapGet_mapSet_self (subs : List (String × Subscriber)) (k : String)
    (v : Subscriber) : mapGet (mapSet subs k v) k = some v := by
  induction subs with
  | nil => simp [mapSet, mapGet, List.find?]
  | cons p rest ih =>
    simp only [mapSet]
    split
    · simp [mapGet, List.find?_cons]
    · rename_i hk
      simpa [mapGet, List.find?_cons, hk] using ih

/-- `Map.set` leaves every other key's value unchanged. -/
theorem mapGet_mapSet_other (subs : List (String × Subscriber)) (k : String)
    (v : Subscriber) (b : String) (hb : b ≠ k) :
    mapGet (mapSet subs k v) b = mapGet subs b := by
  have hkb : k ≠ b := Ne.symm hb
  induction subs with
  | nil => simp [mapSet, mapGet, List.find?, hkb]
  | cons p rest ih =>
    simp only [mapSet]
    split
    · rename_i hk
      simp [mapGet, List.find?_cons, hkb, hk]
    · rename_i hk
      by_cases hpb : p.1 = b
      · simp [mapGet, List.find?_cons, hpb]
      · simpa [mapGet, List.find?_cons, hpb] using ih

/-- `Map.delete` removes the key (keys are unique in a JS `Map`). -/
theorem mapGet_mapDelete_self (subs : List (String × Subscriber)) (k : String)
    (hnodup : (subs.map Prod.fst).Nodup) :
    mapGet (mapDelete subs k) k = none := by
  induction subs with
  | nil => simp [mapDelete, mapGet, List.find?]
  | cons p rest ih =>
    simp only [List.map_cons, List.nodup_cons] at hnodup
    simp only [mapDelete]
    split
    · rename_i hk
      subst hk
      have hfind : List.find? (fun q => decide (q.1 = p.1)) rest = none := by
        rw [List.find?_eq_none]
        intro x hx
        simp only [decide_eq_true_eq]
        intro hxk
        exact hnodup.1 (List.mem_map.mpr ⟨x, hx, hxk⟩)
      simp [mapGet, hfind]
    · rename_i hk
      simpa [mapGet, List.find?_cons, hk] using ih hnodup.2

/-- `Map.delete` leaves every other key's value unchanged. -/
theorem mapGet_mapDelete_other (subs : List (String × Subscriber)) (k : String)
    (b : String) (hb : b ≠ k) :
    mapGet (mapDelete subs k) b = mapGet subs b := by
  induction subs with
  | nil => simp [mapDelete]
  | cons p rest ih =>
    simp only [mapDelete]
    split
    · rename_i hk
      have : ¬ p.1 = b := by rw [hk]; exact fun h => hb h.symm
      simp [mapGet, List.find?_cons, this]
    · rename_i hk
      by_cases hpb : p.1 = b
      · simp [mapGet, List.find?_cons, hpb]
      · simpa [mapGet, List.find?_cons, hpb] using ih

/-- C10: `!subscribe` inserts or overwrites exactly the author's entry
with `enabled = true` and the message's channel id, `!unsubscribe`
removes exactly the author's entry, and both leave every other
subscriber's entry unchanged. -/
theorem subscribe_unsubscribe_frame :
    ∀ (subs : List (String × Subscriber)) (author channel : String),
      (subs.map Prod.fst).Nodup →
      (mapGet (subsEffect "!subscribe" author channel subs) author
          = some ⟨channel, true⟩ ∧
        ∀ b, b ≠ author →
          mapGet (subsEffect "!subscribe" author channel subs) b
            = mapGet subs b) ∧
      (mapGet (subsEffect "!unsubscribe" author channel subs) author = none ∧
        ∀ b, b ≠ author →
          mapGet (subsEffect "!unsubscribe" author channel subs) b
            = mapGet subs b) := by
  intro subs author channel hnodup
  have hsub : subsEffect "!subscribe" author channel subs
      = mapSet subs author ⟨channel, true⟩ := rfl
  have hunsub : subsEffect "!unsubscribe" author channel subs
      = mapDelete subs author := rfl
  rw [hsub, hunsub]
  exact ⟨⟨mapGet_mapSet_self subs author ⟨channel, true⟩,
      fun b hb => mapGet_mapSet_other subs author ⟨channel, true⟩ b hb⟩,
    ⟨mapGet_mapDelete_self subs author hnodup,
      fun b hb => mapGet_mapDelete_other subs author b hb⟩⟩

/-- Witness: on a one-subscriber map, subscribing adds the author and
keeps the other entry, unsubscribing removes only the author. -/
theorem subscribe_unsubscribe_frame_witness :
    mapGet (subsEffect "!subscribe" "u1" "c1" [("u2", ⟨"c2", true⟩)]) "u1"
        = some ⟨"c1", true⟩ ∧
    mapGet (subsEffect "!subscribe" "u1" "c1" [("u2", ⟨"c2", true⟩)]) "u2"
        = mapGet [("u2", ⟨"c2", true⟩)] "u2" ∧
    mapGet (subsEffect "!unsubscribe" "u1" "c1" [("u2", ⟨"c2", true⟩)]) "u1"
        = none := by
  have h := subscribe_unsubscribe_frame [("u2", ⟨"c2", true⟩)] "u1" "c1"
    (by decide)
  exact ⟨h.1.1, h.1.2 "u2" (by decide), h.2.1⟩

/-- Every record returned by `fetchHackerNews` is the normalization of
some Algolia hit. -/
theorem fetchHackerNews_mem {aiTest : String → Bool} {now : ℚ}
    {resp : Resp (List HNHit)} {limit : ℕ} {r : Rec}
    (h : r ∈ fetchHackerNews aiTest now resp limit) :
    ∃ hit, r = hnRec now hit := by
  cases resp with
  | err => cases h
  | httpErr => cases h
  | ok hits =>
    simp only [fetchHackerNews] at h
    have h1 := List.mem_of_mem_take h
    rw [mem_sortByDesc, List.mem_map] at h1
    obtain ⟨hit, _, rfl⟩ := h1
    exact ⟨hit, rfl⟩

/-- C4: each Hacker News record's `pointsPerHour` is the story's points
divided by its age in hours clamped below to one hour, rounded to one
decimal place, and `isHot` holds exactly when the unrounded rate
exceeds 20. -/
theorem hn_velocity (aiTest : String → Bool) (now : ℚ)
    (resp : Resp (List HNHit)) (limit : ℕ) (r : Rec)
    (h : r ∈ fetchHackerNews aiTest now resp limit) :
    ∃ hit, r = hnRec now hit ∧
      r.pointsPerHour
        = some (roundTo1 (hit.points / max 1 ((now - hit.created_at_i) / 3600))) ∧
      r.isHot
        = some (decide (20 < hit.points / max 1 ((now - hit.created_at_i) / 3600))) := by
  obtain ⟨hit, rfl⟩ := fetchHackerNews_mem h
  exact ⟨hit, rfl, rfl, rfl⟩

/-- Witness: a 30-point story two hours old has 15.0 points per hour
and is not hot. -/
theorem hn_velocity_witness :
    ∃ hit, hnRec 7200 hit0 = hnRec 7200 hit ∧
      (hnRec 7200 hit0).pointsPerHour
        = some (roundTo1 (hit.points / max 1 ((7200 - hit.created_at_i) / 3600))) ∧
      (hnRec 7200 hit0).isHot
        = some (decide (20 < hit.points / max 1 ((7200 - hit.created_at_i) / 3600))) :=
  hn_velocity (fun _ => true) 7200 (Resp.ok [hit0]) 6 (hnRec 7200 hit0)
    (by with_unfolding_all decide)

/-- Every record returned by `fetchReddit` is the normalization of a
post of one delivered subreddit response that passed the 24-hour
filter. -/
theorem fetchReddit_origin (now : ℚ) (resps : List (Resp (List RedditPost)))
    (limit : ℕ) (r : Rec) (h : r ∈ fetchReddit now resps limit) :
    ∃ posts p, Resp.ok posts ∈ resps ∧ p ∈ posts ∧
      now - p.created_utc < 86400 ∧ r = redditRec now p := by
  simp only [fetchReddit] at h
  split at h
  · cases h
  · have h1 := List.mem_of_mem_take h
    rw [mem_sortByDesc, List.mem_flatten] at h1
    obtain ⟨l, hl, hrl⟩ := h1
    rw [List.mem_map] at hl
    obtain ⟨resp, hresp, rfl⟩ := hl
    cases resp with
    | err => cases hrl
    | httpErr => cases hrl
    | ok posts =>
      rw [List.mem_map] at hrl
      obtain ⟨p, hp, rfl⟩ := hrl
      rw [List.mem_filter] at hp
      exact ⟨posts, p, hresp, hp.1, of_decide_eq_true hp.2, rfl⟩

/-- C6: every record returned by `fetchReddit` comes from a post
created within the preceding 24 hours (86400 s), filtered before the
rate is computed. -/
theorem reddit_24h_window (now : ℚ) (resps : List (Resp (List RedditPost)))
    (limit : ℕ) (r : Rec) (h : r ∈ fetchReddit now resps limit) :
    ∃ posts p, Resp.ok posts ∈ resps ∧ p ∈ posts ∧
      now - p.created_utc < 86400 ∧ r = redditRec now p :=
  fetchReddit_origin now resps limit r h

set_option maxRecDepth 4000 in
/-- Witness: a one-hour-old post is inside the 24-hour window. -/
theorem reddit_24h_window_witness :
    ∃ posts p, Resp.ok posts ∈ [Resp.ok [post0]] ∧ p ∈ posts ∧
      3600 - p.created_utc < 86400 ∧ redditRec 3600 post0 = redditRec 3600 p :=
  reddit_24h_window 3600 [Resp.ok [post0]] 5 (redditRec 3600 post0)
    (by with_unfolding_all decide)

/-- Sorting the empty list yields the empty list. -/
theorem sortByDesc_nil (f : Rec → ℚ) : sortByDesc f [] = [] :=
  List.mergeSort_nil

/-- With no collected records and only failing search responses, the
query loop of method 2 either aborts or stays empty. -/
theorem ghQueriesLoop_fail (resps : List (Resp (List GHSearchRepo)))
    (hfail : ∀ r ∈ resps, Resp.isOk r = false) (limit : ℕ) :
    ghQueriesLoop limit [] resps = none ∨ ghQueriesLoop limit [] resps = some [] := by
  induction resps with
  | nil => exact Or.inr rfl
  | cons resp rest ih =>
    unfold ghQueriesLoop
    split
    · exact Or.inr rfl
    · cases resp with
      | err => exact Or.inl rfl
      | httpErr => exact ih fun r hr => hfail r (List.mem_cons_of_mem _ hr)
      | ok items =>
        have := hfail (Resp.ok items) (List.mem_cons_self _ _)
        simp [Resp.isOk] at this

/-- A GitHub fetch whose OSS Insight request and all executed search
requests fail returns the empty list. -/
theorem fetchGitHubTrending_fail (ossAI : OSSRepo → Bool)
    (ossResp : Resp (List OSSRepo)) (searchResps : List (Resp (List GHSearchRepo)))
    (limit : ℕ) (hoss : ossResp.isOk = false)
    (hsearch : ∀ r ∈ searchResps, Resp.isOk r = false) :
    fetchGitHubTrending ossAI ossResp searchResps limit = [] := by
  cases ossResp with
  | ok repos => simp [Resp.isOk] at hoss
  | err =>
    simp only [fetchGitHubTrending]
    split
    · rfl
    · rename_i rs heq
      have hrs : rs = [] := by
        split at heq
        · rcases ghQueriesLoop_fail searchResps hsearch limit with h | h
          · rw [h] at heq; exact absurd heq (by simp)
          · rw [h] at heq; injection heq with h2; exact h2.symm
        · injection heq with h2; exact h2.symm
      rw [hrs, sortByDesc_nil, List.take_nil]
  | httpErr =>
    simp only [fetchGitHubTrending]
    split
    · rfl
    · rename_i rs heq
      have hrs : rs = [] := by
        split at heq
        · rcases ghQueriesLoop_fail searchResps hsearch limit with h | h
          · rw [h] at heq; exact absurd heq (by simp)
          · rw [h] at heq; injection heq with h2; exact h2.symm
        · injection heq with h2; exact h2.symm
      rw [hrs, sortByDesc_nil, List.take_nil]

/-- A Reddit fetch none of whose subreddit requests delivers a body
returns the empty list. -/
theorem fetchReddit_fail (now : ℚ) (resps : List (Resp (List RedditPost)))
    (limit : ℕ) (hfail : ∀ r ∈ resps, Resp.isOk r = false) :
    fetchReddit now resps limit = [] := by
  simp only [fetchReddit]
  split
  · rfl
  · have hflat : (resps.map fun resp =>
        match resp with
        | Resp.ok posts =>
          (posts.filter fun p => now - p.created_utc < 86400).map (redditRec now)
        | _ => ([] : List Rec)).flatten = [] := by
      rw [List.flatten_eq_nil_iff]
      intro x hx
      rw [List.mem_map] at hx
      obtain ⟨resp, hr, rfl⟩ := hx
      cases resp with
      | err => rfl
      | httpErr => rfl
      | ok posts =>
        have := hfail (Resp.ok posts) hr
        simp [Resp.isOk] at this
    rw [hflat, sortByDesc_nil, List.take_nil]

/-- A Hugging Face fetch with both requests failing returns the empty
list. -/
theorem fetchHuggingFace_fail (hfAI : HFModel → Bool)
    (mResp : Resp (List HFModel)) (sResp : Resp (List HFSpace)) (limit : ℕ)
    (hm : mResp.isOk = false) (hs : sResp.isOk = false) :
    fetchHuggingFace hfAI mResp sResp limit = [] := by
  cases mResp with
  | ok models => simp [Resp.isOk] at hm
  | err => rfl
  | httpErr =>
    cases sResp with
    | ok spaces => simp [Resp.isOk] at hs
    | err => rfl
    | httpErr =>
      show (sortByDesc _ ([] ++ [])).take limit = []
      rw [List.nil_append, sortByDesc_nil, List.take_nil]

/-- A Product Hunt fetch with every feed source failing returns the
empty list. -/
theorem fetchProductHunt_fail (now : ℚ) (resps : List (Resp (List PHItem)))
    (limit : ℕ) (hfail : ∀ r ∈ resps, Resp.isOk r = false) :
    fetchProductHunt now resps limit = [] := by
  induction resps with
  | nil => rfl
  | cons resp rest ih =>
    cases resp with
    | err => exact ih fun r hr => hfail r (List.mem_cons_of_mem _ hr)
    | httpErr => exact ih fun r hr => hfail r (List.mem_cons_of_mem _ hr)
    | ok items =>
      have := hfail (Resp.ok items) (List.mem_cons_self _ _)
      simp [Resp.isOk] at this

/-- C2: a fetcher whose HTTP requests fail (thrown error or non-ok
status) returns the empty list instead of throwing, and each section of
`generateTrendReport` is exactly its own fetcher's result, so one
failing source degrades to an empty section without touching the
others. -/
theorem fetch_failure_degrades :
    (∀ ossAI (ossResp : Resp (List OSSRepo)) searchResps limit,
        ossResp.isOk = false → (∀ r ∈ searchResps, Resp.isOk r = false) →
        fetchGitHubTrending ossAI ossResp searchResps limit = []) ∧
    (∀ hnAI (now : ℚ) limit,
        fetchHackerNews hnAI now Resp.err limit = [] ∧
        fetchHackerNews hnAI now Resp.httpErr limit = []) ∧
    (∀ (now : ℚ) resps limit, (∀ r ∈ resps, Resp.isOk r = false) →
        fetchReddit now resps limit = []) ∧
    (∀ (now : ℚ) limit,
        fetchArxiv now Resp.err limit = [] ∧
        fetchArxiv now Resp.httpErr limit = []) ∧
    (∀ hfAI (mResp : Resp (List HFModel)) (sResp : Resp (List HFSpace)) limit,
        mResp.isOk = false → sResp.isOk = false →
        fetchHuggingFace hfAI mResp sResp limit = []) ∧
    (∀ (now : ℚ) resps limit, (∀ r ∈ resps, Resp.isOk r = false) →
        fetchProductHunt now resps limit = []) ∧
    (∀ ossAI hnAI hfAI (nowSec nowMs : ℚ) ossResp searchResps hnResp
        redditResps arxivResp mResp sResp phResps,
        (generateTrendReport ossAI hnAI hfAI nowSec nowMs ossResp searchResps
            hnResp redditResps arxivResp mResp sResp phResps).github
          = fetchGitHubTrending ossAI ossResp searchResps 6 ∧
        (generateTrendReport ossAI hnAI hfAI nowSec nowMs ossResp searchResps
            hnResp redditResps arxivResp mResp sResp phResps).hackerNews
          = fetchHackerNews hnAI nowSec hnResp 6 ∧
        (generateTrendReport ossAI hnAI hfAI nowSec nowMs ossResp searchResps
            hnResp redditResps arxivResp mResp sResp phResps).reddit
          = fetchReddit nowSec redditResps 5 ∧
        (generateTrendReport ossAI hnAI hfAI nowSec nowMs ossResp searchResps
            hnResp redditResps arxivResp mResp sResp phResps).arxiv
          = fetchArxiv nowMs arxivResp 4 ∧
        (generateTrendReport ossAI hnAI hfAI nowSec nowMs ossResp searchResps
            hnResp redditResps arxivResp mResp sResp phResps).huggingface
          = fetchHuggingFace hfAI mResp sResp 5 ∧
        (generateTrendReport ossAI hnAI hfAI nowSec nowMs ossResp searchResps
            hnResp redditResps arxivResp mResp sResp phResps).productHunt
          = fetchProductHunt nowMs phResps 3) :=
  ⟨fetchGitHubTrending_fail,
    fun _ _ _ => ⟨rfl, rfl⟩,
    fetchReddit_fail,
    fun _ _ => ⟨rfl, rfl⟩,
    fetchHuggingFace_fail,
    fetchProductHunt_fail,
    fun _ _ _ _ _ _ _ _ _ _ _ _ _ => ⟨rfl, rfl, rfl, rfl, rfl, rfl⟩⟩

/-- Witness: every fetcher on concrete failing responses yields the
empty list, and the failing Hacker News section of a report is the
fetcher's own (empty) result. -/
theorem fetch_failure_degrades_witness :
    fetchGitHubTrending (fun _ => true) Resp.err [Resp.err, Resp.httpErr] 6 = [] ∧
    fetchHackerNews (fun _ => true) 0 Resp.err 6 = [] ∧
    fetchReddit 0 [Resp.err, Resp.httpErr] 5 = [] ∧
    fetchArxiv 0 Resp.httpErr 4 = [] ∧
    fetchHuggingFace (fun _ => true) Resp.err Resp.httpErr 5 = [] ∧
    fetchProductHunt 0 [Resp.httpErr, Resp.err] 3 = [] ∧
    (generateTrendReport (fun _ => true) (fun _ => true) (fun _ => true) 0 0
        Resp.err [] Resp.err [] Resp.err Resp.err Resp.err []).hackerNews
      = fetchHackerNews (fun _ => true) 0 Resp.err 6 := by
  have h := fetch_failure_degrades
  exact ⟨h.1 (fun _ => true) Resp.err [Resp.err, Resp.httpErr] 6 rfl (by decide),
    (h.2.1 (fun _ => true) 0 6).1,
    h.2.2.1 0 [Resp.err, Resp.httpErr] 5 (by decide),
    (h.2.2.2.1 0 4).2,
    h.2.2.2.2.1 (fun _ => true) Resp.err Resp.httpErr 5 rfl rfl,
    h.2.2.2.2.2.1 0 [Resp.httpErr, Resp.err] 3 (by decide),
    (h.2.2.2.2.2.2 (fun _ => true) (fun _ => true) (fun _ => true) 0 0
      Resp.err [] Resp.err [] Resp.err Resp.err Resp.err []).2.1⟩

/-- Records collected by the method-2 item loop come from the already
collected records or are search-item normalizations. -/
theorem ghPushItems_cases {r : Rec} :
    ∀ (items : List GHSearchRepo) (results : List Rec),
      r ∈ ghPushItems results items →
      r ∈ results ∨ ∃ repo, r = ghSearchRec repo := by
  intro items
  induction items with
  | nil => intro results h; exact Or.inl h
  | cons repo rest ih =>
    intro results h
    unfold ghPushItems at h
    split at h
    · exact ih results h
    · rcases ih _ h with h2 | h2
      · rcases List.mem_append.mp h2 with h3 | h3
        · exact Or.inl h3
        · exact Or.inr ⟨repo, List.mem_singleton.mp h3⟩
      · exact Or.inr h2

/-- Records collected by the method-2 query loop come from the already
collected records or are search-item normalizations. -/
theorem ghQueriesLoop_cases {r : Rec} :
    ∀ (resps : List (Resp (List GHSearchRepo))) (limit : ℕ)
      (results rs : List Rec),
      ghQueriesLoop limit results resps = some rs → r ∈ rs →
      r ∈ results ∨ ∃ repo, r = ghSearchRec repo := by
  intro resps
  induction resps with
  | nil =>
    intro limit results rs heq hr
    injection heq with h2
    exact Or.inl (h2 ▸ hr)
  | cons resp rest ih =>
    intro limit results rs heq hr
    unfold ghQueriesLoop at heq
    split at heq
    · injection heq with h2
      exact Or.inl (h2 ▸ hr)
    · cases resp with
      | err => cases heq
      | httpErr => exact ih limit results rs heq hr
      | ok items =>
        rcases ih limit _ rs heq hr with h2 | h2
        · exact ghPushItems_cases items results h2
        · exact Or.inr h2

/-- Every record returned by `fetchGitHubTrending` is the
normalization of an OSS Insight row or of a GitHub Search item. -/
theorem fetchGitHubTrending_mem {ossAI : OSSRepo → Bool}
    {ossResp : Resp (List OSSRepo)}
    {searchResps : List (Resp (List GHSearchRepo))} {limit : ℕ} {r : Rec}
    (h : r ∈ fetchGitHubTrending ossAI ossResp searchResps limit) :
    (∃ repo, r = ossRec repo) ∨ ∃ repo, r = ghSearchRec repo := by
  simp only [fetchGitHubTrending] at h
  split at h
  · cases h
  · rename_i rs heq
    have h1 := List.mem_of_mem_take h
    rw [mem_sortByDesc] at h1
    have horigin : r ∈ (match ossResp with
        | Resp.ok repos => ((repos.filter ossAI).take limit).map ossRec
        | _ => ([] : List Rec)) ∨ ∃ repo, r = ghSearchRec repo := by
      split at heq
      · exact ghQueriesLoop_cases searchResps limit _ rs heq h1
      · injection heq with h2
        exact Or.inl (h2 ▸ h1)
    rcases horigin with h2 | h2
    · cases ossResp with
      | err => cases h2
      | httpErr => cases h2
      | ok repos =>
        rw [List.mem_map] at h2
        obtain ⟨repo, _, rfl⟩ := h2
        exact Or.inl ⟨repo, rfl⟩
    · exact Or.inr h2

/-- Every record returned by `fetchHuggingFace` is the normalization
of a model or of a space. -/
theorem fetchHuggingFace_mem {hfAI : HFModel → Bool}
    {mResp : Resp (List HFModel)} {sResp : Resp (List HFSpace)}
    {limit : ℕ} {r : Rec}
    (h : r ∈ fetchHuggingFace hfAI mResp sResp limit) :
    (∃ m, r = hfModelRec m) ∨ ∃ s, r = hfSpaceRec s := by
  simp only [fetchHuggingFace] at h
  split at h
  · cases h
  · have h1 := List.mem_of_mem_take h
    rw [mem_sortByDesc, List.mem_append] at h1
    rcases h1 with h2 | h2
    · cases mResp with
      | err => cases h2
      | httpErr => cases h2
      | ok models =>
        rw [List.mem_map] at h2
        obtain ⟨m, _, rfl⟩ := h2
        exact Or.inl ⟨m, rfl⟩
    · cases sResp with
      | err => cases h2
      | httpErr => cases h2
      | ok spaces =>
        rw [List.mem_map] at h2
        obtain ⟨s, _, rfl⟩ := h2
        exact Or.inr ⟨s, rfl⟩

/-- An accepted arXiv entry yields the `arxivRec` record of its parsed
fields. -/
theorem arxivEntryRec_eq {now : ℚ} {e : ArxivEntry} {r : Rec}
    (h : arxivEntryRec now e = some r) :
    ∃ hoursAgo t l, r = arxivRec hoursAgo t l e.summary e.authors := by
  rcases e with ⟨title, summary, link, published, authors⟩
  cases title with
  | none => cases h
  | some t =>
    cases link with
    | none => cases h
    | some l =>
      simp only [arxivEntryRec] at h
      split at h
      · cases published with
        | none => cases h
        | some pub =>
          have h2 : (if (now - pub) / (1000 * 60 * 60) ≤ 48
              then some (arxivRec ((now - pub) / (1000 * 60 * 60)) t l
                summary authors)
              else none) = some r := h
          split at h2
          · exact ⟨_, _, _, (Option.some.inj h2).symm⟩
          · cases h2
      · cases h

/-- Every record collected by the arXiv entry loop was already
collected or comes from an accepted entry. -/
theorem arxivLoop_mem {now : ℚ} {limit : ℕ} {r : Rec} :
    ∀ (entries : List ArxivEntry) (papers : List Rec),
      r ∈ arxivLoop now limit papers entries →
      r ∈ papers ∨ ∃ e, arxivEntryRec now e = some r := by
  intro entries
  induction entries with
  | nil => intro papers h; exact Or.inl h
  | cons e rest ih =>
    intro papers h
    simp only [arxivLoop] at h
    cases hrec : arxivEntryRec now e with
    | some r2 =>
      simp only [hrec] at h
      split at h
      · rcases List.mem_append.mp h with h2 | h2
        · exact Or.inl h2
        · exact Or.inr ⟨e, by rw [hrec, List.mem_singleton.mp h2]⟩
      · rcases ih _ h with h2 | h2
        · rcases List.mem_append.mp h2 with h3 | h3
          · exact Or.inl h3
          · exact Or.inr ⟨e, by rw [hrec, List.mem_singleton.mp h3]⟩
        · exact Or.inr h2
    | none =>
      simp only [hrec] at h
      split at h
      · exact Or.inl h
      · rcases ih _ h with h2 | h2
        · exact Or.inl h2
        · exact Or.inr h2

/-- Every record returned by the Product Hunt feed mapping is the
normalization of a feed item. -/
theorem phFromFeed_mem {now : ℚ} {limit : ℕ} {items : List PHItem} {r : Rec}
    (h : r ∈ phFromFeed now limit items) : ∃ item, r = phRec now item := by
  unfold phFromFeed at h
  have h1 := List.mem_of_mem_filter h
  rw [List.mem_map] at h1
  obtain ⟨item, _, rfl⟩ := h1
  exact ⟨item, rfl⟩

/-- Every record returned by the Product Hunt source loop is the
normalization of a feed item. -/
theorem phSourcesLoop_mem {now : ℚ} {limit : ℕ} {r : Rec} :
    ∀ resps : List (Resp (List PHItem)),
      r ∈ phSourcesLoop now limit resps → ∃ item, r = phRec now item := by
  intro resps
  induction resps with
  | nil => intro h; cases h
  | cons resp rest ih =>
    intro h
    cases resp with
    | err => exact ih h
    | httpErr => exact ih h
    | ok items =>
      simp only [phSourcesLoop] at h
      split at h
      · exact phFromFeed_mem h
      · exact ih h

/-- C3 (amended): records of the GitHub, Hacker News, Reddit and
Hugging Face fetchers carry an `isHot` flag from a static threshold on
the record's metric; records of the arXiv and Product Hunt fetchers
carry no `isHot` flag, only the recency flag `isNew`. -/
theorem hot_flags :
    (∀ ossAI ossResp searchResps limit (r : Rec),
        r ∈ fetchGitHubTrending ossAI ossResp searchResps limit →
        (∃ repo, r = ossRec repo ∧
          r.isHot = some (decide (500 < parseIntOr0 repo.stars))) ∨
        (∃ repo, r = ghSearchRec repo ∧
          r.isHot = some (decide (10000 < repo.stargazers_count)))) ∧
    (∀ hnAI (now : ℚ) resp limit (r : Rec),
        r ∈ fetchHackerNews hnAI now resp limit →
        ∃ hit, r = hnRec now hit ∧
          r.isHot
            = some (decide (20 < hit.points / max 1 ((now - hit.created_at_i) / 3600)))) ∧
    (∀ (now : ℚ) resps limit (r : Rec),
        r ∈ fetchReddit now resps limit →
        ∃ p, r = redditRec now p ∧
          r.isHot
            = some (decide (50 < p.score / max 1 ((now - p.created_utc) / 3600)))) ∧
    (∀ hfAI mResp sResp limit (r : Rec),
        r ∈ fetchHuggingFace hfAI mResp sResp limit →
        (∃ m, r = hfModelRec m ∧
          r.isHot = some (decide (100 < m.likes7d.getD 0))) ∨
        (∃ s, r = hfSpaceRec s ∧
          r.isHot = some (decide (50 < s.likes7d.getD 0)))) ∧
    (∀ (now : ℚ) resp limit (r : Rec),
        r ∈ fetchArxiv now resp limit →
        r.isHot = none ∧ r.isNew.isSome = true) ∧
    (∀ (now : ℚ) resps limit (r : Rec),
        r ∈ fetchProductHunt now resps limit →
        r.isHot = none ∧ r.isNew.isSome = true) := by
  refine ⟨?_, ?_, ?_, ?_, ?_, ?_⟩
  · intro ossAI ossResp searchResps limit r h
    rcases fetchGitHubTrending_mem h with ⟨repo, rfl⟩ | ⟨repo, rfl⟩
    · exact Or.inl ⟨repo, rfl, rfl⟩
    · exact Or.inr ⟨repo, rfl, rfl⟩
  · intro hnAI now resp limit r h
    obtain ⟨hit, rfl⟩ := fetchHackerNews_mem h
    exact ⟨hit, rfl, rfl⟩
  · intro now resps limit r h
    obtain ⟨posts, p, _, _, _, rfl⟩ := fetchReddit_origin now resps limit r h
    exact ⟨p, rfl, rfl⟩
  · intro hfAI mResp sResp limit r h
    rcases fetchHuggingFace_mem h with ⟨m, rfl⟩ | ⟨s, rfl⟩
    · exact Or.inl ⟨m, rfl, rfl⟩
    · exact Or.inr ⟨s, rfl, rfl⟩
  · intro now resp limit r h
    cases resp with
    | err => cases h
    | httpErr => cases h
    | ok entries =>
      rcases arxivLoop_mem entries [] h with h2 | ⟨e, he⟩
      · cases h2
      · obtain ⟨hoursAgo, t, l, rfl⟩ := arxivEntryRec_eq he
        exact ⟨rfl, rfl⟩
  · intro now resps limit r h
    obtain ⟨item, rfl⟩ := phSourcesLoop_mem resps h
    exact ⟨rfl, rfl⟩

/-- Counterexample to C3 as stated: `fetchArxiv` returns a record that
carries no `isHot` field at all (its `isHot` is `none`). -/
theorem hot_flags_counterexample :
    (fetchArxiv 144000000 (Resp.ok [entryNew]) 5).map (fun r => r.isHot)
      = [none] := by
  with_unfolding_all decide

/-- Witness: the Hacker News conjunct applied to a concrete story. -/
theorem hot_flags_witness :
    ∃ hit, hnRec 7200 hit0 = hnRec 7200 hit ∧
      (hnRec 7200 hit0).isHot
        = some (decide (20 < hit.points / max 1 ((7200 - hit.created_at_i) / 3600))) :=
  hot_flags.2.1 (fun _ => true) 7200 (Resp.ok [hit0]) 6 (hnRec 7200 hit0)
    (by with_unfolding_all decide)

/-- The arXiv entry loop collects, in response order, the accepted
entries up to the limit. -/
theorem arxivLoop_eq (now : ℚ) (limit : ℕ) :
    ∀ (entries : List ArxivEntry) (papers : List Rec),
      papers.length < limit →
      arxivLoop now limit papers entries
        = papers ++ (entries.filterMap (arxivEntryRec now)).take
            (limit - papers.length) := by
  intro entries
  induction entries with
  | nil => intro papers h; simp [arxivLoop]
  | cons e rest ih =>
    intro papers h
    simp only [arxivLoop, List.filterMap_cons]
    cases hrec : arxivEntryRec now e with
    | none =>
      simp only [hrec]
      rw [if_neg (by omega)]
      exact ih papers h
    | some r =>
      simp only [hrec]
      by_cases hl : limit ≤ (papers ++ [r]).length
      · rw [if_pos hl]
        rw [List.length_append, List.length_singleton] at hl
        have hlim : limit - papers.length = 1 := by omega
        rw [hlim, List.take_succ_cons, List.take_zero]
      · rw [if_neg hl]
        rw [List.length_append, List.length_singleton] at hl
        rw [ih (papers ++ [r]) (by rw [List.length_append, List.length_singleton]; omega)]
        have hlim : limit - papers.length = (limit - (papers ++ [r]).length) + 1 := by
          rw [List.length_append, List.length_singleton]; omega
        rw [hlim, List.take_succ_cons, List.append_assoc, List.singleton_append]

/-- `fetchArxiv` with a positive limit returns exactly the first
accepted entries of the response, in response order. -/
theorem fetchArxiv_eq (now : ℚ) (entries : List ArxivEntry) (limit : ℕ)
    (h : 0 < limit) :
    fetchArxiv now (Resp.ok entries) limit
      = (entries.filterMap (arxivEntryRec now)).take limit := by
  show arxivLoop now limit [] entries = _
  rw [arxivLoop_eq now limit entries [] (by simpa using h)]
  simp

/-- `fetchArxiv` with a positive limit returns at most `limit`
records. -/
theorem fetchArxiv_length (now : ℚ) (resp : Resp (List ArxivEntry))
    (limit : ℕ) (h : 0 < limit) :
    (fetchArxiv now resp limit).length ≤ limit := by
  cases resp with
  | err => simp [fetchArxiv]
  | httpErr => simp [fetchArxiv]
  | ok entries =>
    rw [fetchArxiv_eq now entries limit h, List.length_take]
    exact min_le_left _ _

/-- The Product Hunt feed mapping returns at most `limit` records. -/
theorem phFromFeed_length (now : ℚ) (limit : ℕ) (items : List PHItem) :
    (phFromFeed now limit items).length ≤ limit := by
  refine le_trans (List.length_filter_le _ _) ?_
  rw [List.length_map, List.length_take]
  exact min_le_left _ _

/-- `fetchProductHunt` returns at most `limit` records. -/
theorem fetchProductHunt_length (now : ℚ)
    (resps : List (Resp (List PHItem))) (limit : ℕ) :
    (fetchProductHunt now resps limit).length ≤ limit := by
  induction resps with
  | nil => simp [fetchProductHunt, phSourcesLoop]
  | cons resp rest ih =>
    cases resp with
    | err => exact ih
    | httpErr => exact ih
    | ok items =>
      show (phSourcesLoop now limit (Resp.ok items :: rest)).length ≤ limit
      simp only [phSourcesLoop]
      split
      · exact phFromFeed_length now limit items
      · exact ih

/-- The Product Hunt feed mapping preserves feed order: its output is
a sublist of the normalized feed. -/
theorem phFromFeed_sublist (now : ℚ) (limit : ℕ) (items : List PHItem) :
    (phFromFeed now limit items).Sublist (items.map (phRec now)) :=
  (List.filter_sublist _).trans ((List.take_sublist limit items).map (phRec now))

/-- C1 (amended): every fetcher returns at most `limit` records; the
GitHub, Hacker News, Reddit and Hugging Face fetchers sort descending
by `starsToday`, `pointsPerHour`, `scorePerHour` and `likes7d`
respectively; `fetchArxiv` and `fetchProductHunt` do not sort locally
but keep the API response order. -/
theorem fetchers_truncate_and_rank (limit : ℕ) (hpos : 0 < limit) :
    (∀ ossAI ossResp searchResps,
      (fetchGitHubTrending ossAI ossResp searchResps limit).length ≤ limit ∧
      (fetchGitHubTrending ossAI ossResp searchResps limit).Pairwise
        (fun a b => b.starsToday.getD 0 ≤ a.starsToday.getD 0)) ∧
    (∀ hnAI (now : ℚ) resp,
      (fetchHackerNews hnAI now resp limit).length ≤ limit ∧
      (fetchHackerNews hnAI now resp limit).Pairwise
        (fun a b => b.pointsPerHour.getD 0 ≤ a.pointsPerHour.getD 0)) ∧
    (∀ (now : ℚ) resps,
      (fetchReddit now resps limit).length ≤ limit ∧
      (fetchReddit now resps limit).Pairwise
        (fun a b => b.scorePerHour.getD 0 ≤ a.scorePerHour.getD 0)) ∧
    (∀ hfAI mResp sResp,
      (fetchHuggingFace hfAI mResp sResp limit).length ≤ limit ∧
      (fetchHuggingFace hfAI mResp sResp limit).Pairwise
        (fun a b => b.likes7d.getD 0 ≤ a.likes7d.getD 0)) ∧
    (∀ (now : ℚ) resp, (fetchArxiv now resp limit).length ≤ limit) ∧
    (∀ (now : ℚ) entries,
      fetchArxiv now (Resp.ok entries) limit
        = (entries.filterMap (arxivEntryRec now)).take limit) ∧
    (∀ (now : ℚ) resps, (fetchProductHunt now resps limit).length ≤ limit) ∧
    (∀ (now : ℚ) items,
      (phFromFeed now limit items).Sublist (items.map (phRec now))) := by
  refine ⟨?_, ?_, ?_, ?_, ?_, ?_, ?_, ?_⟩
  · intro ossAI ossResp searchResps
    simp only [fetchGitHubTrending]
    split
    · exact ⟨by simp, List.Pairwise.nil⟩
    · exact ⟨length_take_sortByDesc _ _ _, pairwise_take_sortByDesc _ _ _⟩
  · intro hnAI now resp
    cases resp with
    | err => exact ⟨by simp [fetchHackerNews], by simp [fetchHackerNews]⟩
    | httpErr => exact ⟨by simp [fetchHackerNews], by simp [fetchHackerNews]⟩
    | ok hits =>
      exact ⟨length_take_sortByDesc _ _ _, pairwise_take_sortByDesc _ _ _⟩
  · intro now resps
    simp only [fetchReddit]
    split
    · exact ⟨by simp, List.Pairwise.nil⟩
    · exact ⟨length_take_sortByDesc _ _ _, pairwise_take_sortByDesc _ _ _⟩
  · intro hfAI mResp sResp
    simp only [fetchHuggingFace]
    split
    · exact ⟨by simp, List.Pairwise.nil⟩
    · exact ⟨length_take_sortByDesc _ _ _, pairwise_take_sortByDesc _ _ _⟩
  · intro now resp
    exact fetchArxiv_length now resp limit hpos
  · intro now entries
    exact fetchArxiv_eq now entries limit hpos
  · intro now resps
    exact fetchProductHunt_length now resps limit
  · intro now items
    exact phFromFeed_sublist now limit items

/-- Counterexample to C1 as stated: `fetchArxiv` performs no local
sort, so a response listing an older paper before a newer one is
returned in that order, not descending by submission recency. -/
theorem arxiv_unsorted_counterexample :
    ¬ ((fetchArxiv 144000000 (Resp.ok [entryOld, entryNew]) 5).Pairwise
        fun a b => a.hoursAgo.getD 0 ≤ b.hoursAgo.getD 0) := by
  with_unfolding_all decide

/-- Witness: the Hacker News conjunct at limit 5 on a one-story
response. -/
theorem fetchers_truncate_and_rank_witness :
    (fetchHackerNews (fun _ => true) 7200 (Resp.ok [hit0]) 5).length ≤ 5 :=
  ((fetchers_truncate_and_rank 5 (by omega)).2.1 (fun _ => true) 7200
    (Resp.ok [hit0])).1

end AITrends
